import Mathlib

/-!
A verification development for the miniasm++ interpreter (`miniasm++.cpp`).

The interpreter pipeline is shallowly embedded: pure C++ functions become
Lean functions, the mutable program state (memory pool, cursor, timer,
I/O streams) becomes an explicit state record threaded through an
executable step function, and every `ASSERT(..., msg)` that aborts the
process becomes an `Except` error carrying the corresponding error kind.

Machine integers (`int`) are modelled as `Int`; where the two's-complement
bit pattern matters (bitwise instructions, rotations), the pattern is made
explicit through `u32`/`s32` conversions (`n % 2^32` arithmetic).  `size_t`
quantities are modelled as `Nat`, with the `int → size_t` conversion made
explicit modulo `2^64` where the source performs it.
-/

namespace Masm

/-- The fatal error kinds of the interpreter.  Each constructor corresponds
to one `ASSERT(..., "message")` abort message in the source (plus
`divisionByZero` for the hardware trap raised by `DIV`/`MOD` with a zero
divisor, which also terminates the process). -/
inductive Err where
  | memoryIndexError
  | memoryLimitExceeded
  | referencesOverflow
  | timeLimitExceeded
  | invalidPosition
  | invalidValue
  | integerTooLong
  | unknownInstruction
  | divisionByZero
  deriving DecidableEq

/-- Constant `MemoryPool::MaxMemorySize`. -/
def MaxMemorySize : Nat := 10000000

/-- Constant `Value::MaxReferenceRecursive`. -/
def MaxReferenceRecursive : Nat := 256

/-- Constant `Program::Timelimit`. -/
def Timelimit : Nat := 50000000

/-- Constant `Parser::MaxIntegerLength`. -/
def MaxIntegerLength : Nat := 10

/-- Interpreter configuration: `friendly` is the `FRIENDLY_MODE` build
toggle (zero-initialize memory instead of random garbage), and `rand`
models the `randint()` random source used by the default mode. -/
structure Cfg where
  friendly : Bool
  rand : Nat → Int

/-- Source `MemoryPool::operator[]` used as a read:
`ASSERT(0 <= pos && pos < _size, "Memory index error")`.  The source
converts the `int` address to `size_t`; a negative address becomes a huge
unsigned value and fails the `pos < _size` bound, so the check passes
exactly when `0 ≤ pos < _size`. -/
def memRead (m : List Int) (pos : Int) : Except Err Int :=
  if h : 0 ≤ pos ∧ pos < (m.length : Int) then
    .ok (m.get ⟨pos.toNat, by omega⟩)
  else .error .memoryIndexError

/-- Source `MemoryPool::operator[]` used as the destination of an assignment:
same bounds check, then the cell is overwritten. -/
def memWrite (m : List Int) (pos : Int) (x : Int) : Except Err (List Int) :=
  if 0 ≤ pos ∧ pos < (m.length : Int) then .ok (m.set pos.toNat x)
  else .error .memoryIndexError

/-- Source `MemoryPool::resize`: `ASSERT(size <= MaxMemorySize, "Memory limit
exceeded")`, then the old contents are discarded and every cell is
reinitialized — to zero under `FRIENDLY_MODE`, to `randint()` garbage
otherwise.  The `int → size_t` conversion of the requested size makes a
negative request a huge unsigned value, which also fails the bound. -/
def memResize (cfg : Cfg) (n : Int) : Except Err (List Int) :=
  if 0 ≤ n ∧ n ≤ (MaxMemorySize : Int) then
    .ok (if cfg.friendly then List.replicate n.toNat 0
         else (List.range n.toNat).map cfg.rand)
  else .error .memoryLimitExceeded

/-- Source `class Value`: a literal base (`_value`) plus a dereference depth
(`_recur`), as set by `Value::set`. -/
structure Value where
  value : Int
  recur : Nat
  deriving DecidableEq

/-- The dereference loop body of `Value::get`:
`for (i = 0; i < _recur; i++) result = (*memory)[result];`. -/
def Value.getLoop (m : List Int) : Nat → Int → Except Err Int
  | 0, r => .ok r
  | n + 1, r =>
    match memRead m r with
    | .ok r2 => Value.getLoop m n r2
    | .error e => .error e

/-- Source `Value::get`: `ASSERT(_recur <= MaxReferenceRecursive, "References
overflow")`, then `_recur` successive bounds-checked loads starting from
`_value`. -/
def Value.get (v : Value) (m : List Int) : Except Err Int :=
  if v.recur ≤ MaxReferenceRecursive then Value.getLoop m v.recur v.value
  else .error .referencesOverflow

/-- The character classes of `Tokenizer::tokenize`'s scanner. -/
inductive TokenType where
  | UNKNOWN
  | ALPHAS
  | SIGNS
  | DIGITS
  deriving DecidableEq

/-- Character classification inside `Tokenizer::tokenize`: `isalpha`,
`isdigit`, the sign characters `*` and `#`, everything else `UNKNOWN`.
(The C classification is the "C" locale, i.e. ASCII.) -/
def classify (c : Char) : TokenType :=
  if c.isAlpha then .ALPHAS
  else if c.isDigit then .DIGITS
  else if c = '*' ∨ c = '#' then .SIGNS
  else .UNKNOWN

/-- A token's captured character span (`Token::lexeme` with `Token::size`). -/
def Token := List Char

/-- The scanning loop of `Tokenizer::tokenize`.  `mode` is the current
run's class (`UNKNOWN` when no run is open) and `cur` the characters
captured since `lastpos`.  A character of a different non-`UNKNOWN` class
pushes the current token and re-processes the same character with
`mode = UNKNOWN` (the source's `pos--`), which immediately opens a fresh
run at that character; that re-dispatch is inlined here.  When the buffer
ends (`buffer[pos] == 0`) the loop exits without pushing, so a run still
open at the end of the buffer produces no token. -/
def tokenizeLoop (mode : TokenType) (cur : List Char) : List Char → List (List Char)
  | [] => []
  | c :: rest =>
    let t := classify c
    if t = .UNKNOWN then
      if mode = .UNKNOWN then tokenizeLoop .UNKNOWN [] rest
      else cur :: tokenizeLoop .UNKNOWN [] rest
    else if mode = .UNKNOWN then tokenizeLoop t [c] rest
    else if mode = t then tokenizeLoop mode (cur ++ [c]) rest
    else cur :: tokenizeLoop t [c] rest

/-- Source `Tokenizer::tokenize`. -/
def tokenize (buffer : List Char) : List (List Char) :=
  tokenizeLoop .UNKNOWN [] buffer

/-- Source `Token::is_int`: `size > 0 && isdigit(lexeme[0])`. -/
def Token.is_int (t : List Char) : Bool :=
  match t with
  | [] => false
  | c :: _ => c.isDigit

/-- Source `Token::is_comment`: `size > 0 && lexeme[0] == '#'`. -/
def Token.is_comment (t : List Char) : Bool :=
  match t with
  | [] => false
  | c :: _ => c = '#'

/-- Source `Token::as_int` (`atoi` on the lexeme): the decimal value of the
leading digit run.  `as_int` is only invoked on tokens whose first
character is a digit; `int` overflow of very long literals is outside the
modelled behaviour (the parser rejects literals longer than 10 characters
before converting). -/
def Token.as_int (t : List Char) : Int :=
  (((t.takeWhile Char.isDigit).foldl (fun acc c => 10 * acc + (c.toNat - 48)) 0 : Nat) : Int)

/-- The unsigned 32-bit pattern of a machine `int` value (two's
complement). -/
def u32 (v : Int) : Nat := (v % (4294967296 : Int)).toNat

/-- The signed value of an unsigned 32-bit pattern. -/
def s32 (n : Nat) : Int :=
  if n % 4294967296 < 2147483648 then ((n % 4294967296 : Nat) : Int)
  else ((n % 4294967296 : Nat) : Int) - 4294967296

/-- C `a | b` on `int`: bitwise or of the two's-complement patterns. -/
def orC (a b : Int) : Int := s32 ((u32 a) ||| (u32 b))

/-- C `a & b` on `int`: bitwise and of the two's-complement patterns. -/
def andC (a b : Int) : Int := s32 ((u32 a) &&& (u32 b))

/-- C `a ^ b` on `int`: bitwise xor of the two's-complement patterns. -/
def xorC (a b : Int) : Int := s32 ((u32 a) ^^^ (u32 b))

/-- C `~a` on `int`: two's-complement bitwise complement, `-a - 1`. -/
def notC (a : Int) : Int := -a - 1

/-- C `v << k` on `int` for a shift count `0 ≤ k < 32`: the pattern
shifted left, truncated to 32 bits (the x86 wrap-around behaviour of the
signed-overflow cases the standard leaves undefined). -/
def shlC (v : Int) (k : Nat) : Int := s32 ((u32 v) <<< k)

/-- C `v >> k` on `int` for a shift count `0 ≤ k < 32`: arithmetic shift
right (the gcc/x86 behaviour for negative values), i.e. floor division by
`2 ^ k`; `Int.ediv` is floor division for a positive divisor. -/
def asrC (v : Int) (k : Nat) : Int := v / ((2 : Int) ^ k)

/-- Constant `INT_HIGHBIT` = `sizeof(int) * 8 - 1` = 31. -/
def INT_HIGHBIT : Nat := 31

/-- One iteration of `RolInstruction`'s loop:
`v = (v << 1) | (v >> INT_HIGHBIT)`. -/
def rolStep (v : Int) : Int := orC (shlC v 1) (asrC v INT_HIGHBIT)

/-- The `for (i = 0; i < t; i++)` loop of `RolInstruction::execute`. -/
def rolIter (v : Int) : Nat → Int
  | 0 => v
  | t + 1 => rolStep (rolIter v t)

/-- One iteration of `RorInstruction`'s loop:
`v = (v >> 1) | (v & (1 << INT_HIGHBIT))`. -/
def rorStep (v : Int) : Int := orC (asrC v 1) (andC v (shlC 1 INT_HIGHBIT))

/-- The `for (i = 0; i < t; i++)` loop of `RorInstruction::execute`. -/
def rorIter (v : Int) : Nat → Int
  | 0 => v
  | t + 1 => rorStep (rorIter v t)

/-- The instruction set, one constructor per `*Instruction` class, each
carrying its typed `*Args` operand record.  `tnop` is `TaggedNopInstruction`,
`input` is `InInstruction`, `out` is `OutInstruction`. -/
inductive Instr where
  | nop
  | tnop (index : Value)
  | mem (value : Value)
  | input (index : Value)
  | out (value : Value)
  | set (value index : Value)
  | add (value1 value2 index : Value)
  | sub (value1 value2 index : Value)
  | mul (value1 value2 index : Value)
  | div (value1 value2 index : Value)
  | mod (value1 value2 index : Value)
  | inc (value index : Value)
  | dec (value index : Value)
  | nec (value index : Value)
  | and (value1 value2 index : Value)
  | or (value1 value2 index : Value)
  | xor (value1 value2 index : Value)
  | flip (value index : Value)
  | not (value index : Value)
  | shl (value1 value2 index : Value)
  | shr (value1 value2 index : Value)
  | rol (value1 value2 index : Value)
  | ror (value1 value2 index : Value)
  | equ (value1 value2 index : Value)
  | gter (value1 value2 index : Value)
  | less (value1 value2 index : Value)
  | geq (value1 value2 index : Value)
  | leq (value1 value2 index : Value)
  | jmp (value : Value)
  | jmov (value : Value)
  | jif (value1 value2 : Value)
  | jifm (value1 value2 : Value)
  deriving DecidableEq

/-- The observable machine state an instruction executes against: the
program's memory pool and cursor (`Program::memory`, `Program::current` —
the two public fields the environment exposes), plus the two external
I/O streams (`scanf` input and `printf` output). -/
structure VMState where
  memory : List Int
  cursor : Nat
  inputs : List Int
  outputs : List Int
  deriving DecidableEq

/-- Source pattern `env->memory[GET(index)] = x`: resolve the destination operand and
store through the bounds-checked accessor. -/
def writeAt (st : VMState) (index : Value) (x : Int) : Except Err VMState := do
  let c ← Value.get index st.memory
  let m ← memWrite st.memory c x
  .ok { st with memory := m }

/-- The `int → size_t` conversion applied when a resolved operand is
assigned to `Program::current`. -/
def toU64 (a : Int) : Nat := (a % (18446744073709551616 : Int)).toNat

/-- The virtual `execute(args)` dispatch: one arm per `*Instruction::execute`.
Each arm resolves its operands against the current memory (sources before
the destination index, exactly in source order), performs its effect, and
returns the used time — the literal `return 0;` of every `execute` in the
source, including the I/O instructions.  Notes on individual arms:
* `tnop` stores `env->current`, which the run loop has already advanced
  past the executing instruction;
* `input` models `scanf("%d", &result)`; on an exhausted input stream the
  source leaves `result` uninitialized, modelled here as 0;
* `div`/`mod` with zero divisor is a hardware trap (process death) in the
  source, modelled as the fatal `divisionByZero` error;
* the shift counts of `shl`/`shr`/`rol`/`ror` take the low five bits of
  the pattern (`rol`/`ror` do so explicitly via `& INT_HIGHBIT`; for
  `shl`/`shr` the C standard leaves out-of-range counts undefined and the
  x86 hardware masks them);
* `int` overflow of `+`, `-`, `*` is undefined behaviour in the source and
  left unwrapped here (no claim exercises it). -/
def execInstr (cfg : Cfg) (i : Instr) (st : VMState) : Except Err (VMState × Nat) :=
  match i with
  | .nop => .ok (st, 0)
  | .tnop index => do
    let st2 ← writeAt st index (st.cursor : Int)
    .ok (st2, 0)
  | .mem value => do
    let n ← Value.get value st.memory
    let m ← memResize cfg n
    .ok ({ st with memory := m }, 0)
  | .input index => do
    let x := st.inputs.headD 0
    let st2 ← writeAt { st with inputs := st.inputs.tail } index x
    .ok (st2, 0)
  | .out value => do
    let a ← Value.get value st.memory
    .ok ({ st with outputs := st.outputs ++ [a] }, 0)
  | .set value index => do
    let a ← Value.get value st.memory
    let st2 ← writeAt st index a
    .ok (st2, 0)
  | .add value1 value2 index => do
    let a ← Value.get value1 st.memory
    let b ← Value.get value2 st.memory
    let st2 ← writeAt st index (a + b)
    .ok (st2, 0)
  | .sub value1 value2 index => do
    let a ← Value.get value1 st.memory
    let b ← Value.get value2 st.memory
    let st2 ← writeAt st index (a - b)
    .ok (st2, 0)
  | .mul value1 value2 index => do
    let a ← Value.get value1 st.memory
    let b ← Value.get value2 st.memory
    let st2 ← writeAt st index (a * b)
    .ok (st2, 0)
  | .div value1 value2 index => do
    let a ← Value.get value1 st.memory
    let b ← Value.get value2 st.memory
    if b = 0 then .error .divisionByZero
    else do
      let st2 ← writeAt st index (Int.tdiv a b)
      .ok (st2, 0)
  | .mod value1 value2 index => do
    let a ← Value.get value1 st.memory
    let b ← Value.get value2 st.memory
    if b = 0 then .error .divisionByZero
    else do
      let st2 ← writeAt st index (Int.tmod a b)
      .ok (st2, 0)
  | .inc value index => do
    let a ← Value.get value st.memory
    let st2 ← writeAt st index (a + 1)
    .ok (st2, 0)
  | .dec value index => do
    let a ← Value.get value st.memory
    let st2 ← writeAt st index (a - 1)
    .ok (st2, 0)
  | .nec value index => do
    let a ← Value.get value st.memory
    let st2 ← writeAt st index (-a)
    .ok (st2, 0)
  | .and value1 value2 index => do
    let a ← Value.get value1 st.memory
    let b ← Value.get value2 st.memory
    let st2 ← writeAt st index (andC a b)
    .ok (st2, 0)
  | .or value1 value2 index => do
    let a ← Value.get value1 st.memory
    let b ← Value.get value2 st.memory
    let st2 ← writeAt st index (orC a b)
    .ok (st2, 0)
  | .xor value1 value2 index => do
    let a ← Value.get value1 st.memory
    let b ← Value.get value2 st.memory
    let st2 ← writeAt st index (xorC a b)
    .ok (st2, 0)
  | .flip value index => do
    let a ← Value.get value st.memory
    let st2 ← writeAt st index (notC a)
    .ok (st2, 0)
  | .not value index => do
    let a ← Value.get value st.memory
    let st2 ← writeAt st index (if a = 0 then 1 else 0)
    .ok (st2, 0)
  | .shl value1 value2 index => do
    let a ← Value.get value1 st.memory
    let b ← Value.get value2 st.memory
    let st2 ← writeAt st index (shlC a ((u32 b) &&& 31))
    .ok (st2, 0)
  | .shr value1 value2 index => do
    let a ← Value.get value1 st.memory
    let b ← Value.get value2 st.memory
    let st2 ← writeAt st index (asrC a ((u32 b) &&& 31))
    .ok (st2, 0)
  | .rol value1 value2 index => do
    let a ← Value.get value1 st.memory
    let b ← Value.get value2 st.memory
    let t := (u32 b) &&& INT_HIGHBIT
    let st2 ← writeAt st index (rolIter a t)
    .ok (st2, 0)
  | .ror value1 value2 index => do
    let a ← Value.get value1 st.memory
    let b ← Value.get value2 st.memory
    let t := (u32 b) &&& INT_HIGHBIT
    let st2 ← writeAt st index (rorIter a t)
    .ok (st2, 0)
  | .equ value1 value2 index => do
    let a ← Value.get value1 st.memory
    let b ← Value.get value2 st.memory
    let st2 ← writeAt st index (if a = b then 1 else 0)
    .ok (st2, 0)
  | .gter value1 value2 index => do
    let a ← Value.get value1 st.memory
    let b ← Value.get value2 st.memory
    let st2 ← writeAt st index (if b < a then 1 else 0)
    .ok (st2, 0)
  | .less value1 value2 index => do
    let a ← Value.get value1 st.memory
    let b ← Value.get value2 st.memory
    let st2 ← writeAt st index (if a < b then 1 else 0)
    .ok (st2, 0)
  | .geq value1 value2 index => do
    let a ← Value.get value1 st.memory
    let b ← Value.get value2 st.memory
    let st2 ← writeAt st index (if b ≤ a then 1 else 0)
    .ok (st2, 0)
  | .leq value1 value2 index => do
    let a ← Value.get value1 st.memory
    let b ← Value.get value2 st.memory
    let st2 ← writeAt st index (if a ≤ b then 1 else 0)
    .ok (st2, 0)
  | .jmp value => do
    let a ← Value.get value st.memory
    .ok ({ st with cursor := toU64 a }, 0)
  | .jmov value => do
    let a ← Value.get value st.memory
    .ok ({ st with cursor := toU64 ((st.cursor : Int) + a) }, 0)
  | .jif value1 value2 => do
    let a ← Value.get value1 st.memory
    if a ≠ 0 then do
      let b ← Value.get value2 st.memory
      .ok ({ st with cursor := toU64 b }, 0)
    else .ok (st, 0)
  | .jifm value1 value2 => do
    let a ← Value.get value1 st.memory
    if a ≠ 0 then do
      let b ← Value.get value2 st.memory
      .ok ({ st with cursor := toU64 ((st.cursor : Int) + b) }, 0)
    else .ok (st, 0)

/-- The outcome of `Program::run`.  `_timer` is a private field of
`Program` that no instruction can reach (only the loop's
`_timer += execute(...)` touches it), so it is threaded alongside the
instruction-visible state rather than inside it.  `outOfFuel` is the
artefact of the explicit fuel; a real run corresponds to a fuel large
enough that it is not reached. -/
inductive RunResult where
  | halted (timer : Nat) (st : VMState)
  | aborted (e : Err) (timer : Nat) (st : VMState)
  | outOfFuel (timer : Nat) (st : VMState)
  deriving DecidableEq

/-- The final timer of a run outcome. -/
def RunResult.timer : RunResult → Nat
  | .halted t _ => t
  | .aborted _ t _ => t
  | .outOfFuel t _ => t

/-- Source `Program::run`, as a fuelled loop.  Per iteration, in source order:
the `while (!exited())` guard (`exited()` is `current >= _commands.size()`),
`ASSERT(_timer <= Timelimit, "Time limit exceeded")`,
`ASSERT(0 <= current && current < _commands.size(), "Invalid position")`,
fetch `_commands[current]`, `current++`, execute, and
`_timer += ` the returned cost. -/
def run (cfg : Cfg) (cmds : List Instr) : Nat → Nat → VMState → RunResult
  | 0, timer, st => .outOfFuel timer st
  | fuel + 1, timer, st =>
    if cmds.length ≤ st.cursor then .halted timer st
    else if Timelimit < timer then .aborted .timeLimitExceeded timer st
    else if h : st.cursor < cmds.length then
      let cmd := cmds[st.cursor]
      let st1 := { st with cursor := st.cursor + 1 }
      match execInstr cfg cmd st1 with
      | .error e => .aborted e timer st1
      | .ok (st2, cost) => run cfg cmds fuel (timer + cost) st2
    else .aborted .invalidPosition timer st

/-- The state of a freshly constructed `Program` (empty memory pool,
cursor 0) together with the not-yet-consumed input stream. -/
def initState (inputs : List Int) : VMState :=
  { memory := [], cursor := 0, inputs := inputs, outputs := [] }

/-- The loop body of `Parser::read_value`: `ASSERT(beg != end, "Invalid
value")`; an integer token is length-checked
(`ASSERT(beg->size <= MaxIntegerLength, "Integer too long")`), converted,
and terminates the read; any other token adds its character count to the
accumulating dereference depth `recur`. -/
def read_value (ts : List (List Char)) (recur : Nat) : Except Err (Value × List (List Char)) :=
  match ts with
  | [] => .error .invalidValue
  | t :: rest =>
    if Token.is_int t then
      if t.length ≤ MaxIntegerLength then .ok (⟨Token.as_int t, recur⟩, rest)
      else .error .integerTooLong
    else read_value rest (recur + t.length)

/-- Source `Parser::parse_nop`: if the line's last token is an integer literal
the line is a tagged NOP whose operand is read from the tokens after the
opcode, otherwise a plain NOP.  (`parse` only calls this on a non-empty
token list, so the `none` fallback for `tokens.back()` is unreachable.) -/
def parse_nop (tokens : List (List Char)) : Except Err Instr :=
  match tokens.getLast? with
  | some last =>
    if Token.is_int last then do
      let (v, _) ← read_value tokens.tail 0
      .ok (.tnop v)
    else .ok .nop
  | none => .ok .nop

/-- Source `Parser::parse_i`: one operand, the destination index. -/
def parse_i (mk : Value → Instr) (tokens : List (List Char)) : Except Err Instr := do
  let (v, _) ← read_value tokens.tail 0
  .ok (mk v)

/-- Source `Parser::parse_v`: one operand, a value. -/
def parse_v (mk : Value → Instr) (tokens : List (List Char)) : Except Err Instr := do
  let (v, _) ← read_value tokens.tail 0
  .ok (mk v)

/-- Source `Parser::parse_vv`: two value operands, read left to right. -/
def parse_vv (mk : Value → Value → Instr) (tokens : List (List Char)) : Except Err Instr := do
  let (v1, r1) ← read_value tokens.tail 0
  let (v2, _) ← read_value r1 0
  .ok (mk v1 v2)

/-- Source `Parser::parse_vi`: a value then the destination index. -/
def parse_vi (mk : Value → Value → Instr) (tokens : List (List Char)) : Except Err Instr := do
  let (v, r1) ← read_value tokens.tail 0
  let (i, _) ← read_value r1 0
  .ok (mk v i)

/-- Source `Parser::parse_vvi`: two values then the destination index. -/
def parse_vvi (mk : Value → Value → Value → Instr) (tokens : List (List Char)) : Except Err Instr := do
  let (v1, r1) ← read_value tokens.tail 0
  let (v2, r2) ← read_value r1 0
  let (i, _) ← read_value r2 0
  .ok (mk v1 v2 i)

/-- Source `Parser::parse`: tokenize the line; an empty token sequence or a
leading comment token yields no command; otherwise the first token is
matched case-sensitively against the opcode table and the declared
operand shape is read; an unmatched opcode is the fatal
`ASSERT(false, "Unknown instruction")`. -/
def parse (line : List Char) : Except Err (Option Instr) :=
  let tokens := tokenize line
  match tokens with
  | [] => .ok none
  | t :: _ =>
    if Token.is_comment t then .ok none
    else if t = ("NOP").toList then (parse_nop tokens).map some
    else if t = ("MEM").toList then (parse_v Instr.mem tokens).map some
    else if t = ("IN").toList then (parse_i Instr.input tokens).map some
    else if t = ("OUT").toList then (parse_v Instr.out tokens).map some
    else if t = ("SET").toList then (parse_vi Instr.set tokens).map some
    else if t = ("ADD").toList then (parse_vvi Instr.add tokens).map some
    else if t = ("SUB").toList then (parse_vvi Instr.sub tokens).map some
    else if t = ("MUL").toList then (parse_vvi Instr.mul tokens).map some
    else if t = ("DIV").toList then (parse_vvi Instr.div tokens).map some
    else if t = ("MOD").toList then (parse_vvi Instr.mod tokens).map some
    else if t = ("INC").toList then (parse_vi Instr.inc tokens).map some
    else if t = ("DEC").toList then (parse_vi Instr.dec tokens).map some
    else if t = ("NEC").toList then (parse_vi Instr.nec tokens).map some
    else if t = ("AND").toList then (parse_vvi Instr.and tokens).map some
    else if t = ("OR").toList then (parse_vvi Instr.or tokens).map some
    else if t = ("XOR").toList then (parse_vvi Instr.xor tokens).map some
    else if t = ("FLIP").toList then (parse_vi Instr.flip tokens).map some
    else if t = ("NOT").toList then (parse_vi Instr.not tokens).map some
    else if t = ("SHL").toList then (parse_vvi Instr.shl tokens).map some
    else if t = ("SHR").toList then (parse_vvi Instr.shr tokens).map some
    else if t = ("ROL").toList then (parse_vvi Instr.rol tokens).map some
    else if t = ("ROR").toList then (parse_vvi Instr.ror tokens).map some
    else if t = ("EQU").toList then (parse_vvi Instr.equ tokens).map some
    else if t = ("GTER").toList then (parse_vvi Instr.gter tokens).map some
    else if t = ("LESS").toList then (parse_vvi Instr.less tokens).map some
    else if t = ("GEQ").toList then (parse_vvi Instr.geq tokens).map some
    else if t = ("LEQ").toList then (parse_vvi Instr.leq tokens).map some
    else if t = ("JMP").toList then (parse_v Instr.jmp tokens).map some
    else if t = ("JMOV").toList then (parse_v Instr.jmov tokens).map some
    else if t = ("JIF").toList then (parse_vv Instr.jif tokens).map some
    else if t = ("JIFM").toList then (parse_vv Instr.jifm tokens).map some
    else .error .unknownInstruction

/-- The load loop of `main`: parse each line in order and append every
valid command to the program. -/
def loadLines : List (List Char) → Except Err (List Instr)
  | [] => .ok []
  | l :: rest => do
    let c ← parse l
    let prog ← loadLines rest
    match c with
    | some i => .ok (i :: prog)
    | none => .ok prog

/-- End-to-end pipeline of `main`: load the source lines (each line as
delivered by `fgets`, i.e. including its terminating newline), then run
the program from the fresh state with timer 0. -/
def runSource (cfg : Cfg) (lines : List (List Char)) (inputs : List Int) (fuel : Nat) :
    Except Err RunResult := do
  let prog ← loadLines lines
  .ok (run cfg prog fuel 0 (initState inputs))

/-- The friendly-mode configuration (the random source is irrelevant in
friendly mode; a concrete constant one keeps everything evaluable). -/
def cfgF : Cfg := ⟨true, fun _ => 0⟩

/-- Spec-side form of operand resolution (from the spec's words): `depth`
successive loads `addr = memory[addr]`, expressed as a monadic fold over
`List.range depth` so that the number of loads is the length of the list
folded over. -/
def resolveFold (m : List Int) (base : Int) (depth : Nat) : Except Err Int :=
  (List.range depth).foldlM (fun r _ => memRead m r) base

/-- Spec-side form of the tokenizer contract (from the claim's words):
one token per maximal run of consecutive same-class characters, in
left-to-right order, each token being exactly that character span;
`other`-class characters produce no token.  Every maximal run is
emitted, including a final run terminated by the end of the line. -/
def specRuns : List Char → List (List Char)
  | [] => []
  | c :: rest =>
    if classify c = .UNKNOWN then specRuns rest
    else
      (c :: rest.takeWhile (fun b => classify b = classify c)) ::
        specRuns (rest.dropWhile (fun b => classify b = classify c))
termination_by s => s.length
decreasing_by
  all_goals simp_wf
  all_goals have := (List.dropWhile_sublist (l := rest) (p := fun b => decide (classify b = classify c))).length_le
  all_goals omega

/-- Whether the line's last character belongs to a token class, i.e.
whether the line ends inside a maximal run. -/
def endsTokenish (s : List Char) : Bool :=
  match s.getLast? with
  | some c => classify c ≠ TokenType.UNKNOWN
  | none => false

/-- Spec-side exact 32-bit rotate left (from the claim's words: every bit
rotated out of one end reappears at the other end), on unsigned patterns. -/
def rotl32 (n : Nat) (k : Nat) : Nat :=
  (((n % 4294967296) <<< k) ||| ((n % 4294967296) >>> (32 - k))) % 4294967296

/-- Spec-side exact 32-bit rotate right, on unsigned patterns. -/
def rotr32 (n : Nat) (k : Nat) : Nat :=
  (((n % 4294967296) >>> k) ||| ((n % 4294967296) <<< (32 - k))) % 4294967296

/-! ### Helper lemmas -/

theorem bindOk {α β : Type} {e : Except Err α} {f : α → Except Err β} {r : β}
    (h : (e >>= f) = .ok r) : ∃ a, e = .ok a ∧ f a = .ok r := by
  cases e with
  | error er => exact Except.noConfusion h
  | ok a => exact ⟨a, rfl, h⟩

theorem bindEr {α β : Type} {e : Except Err α} {f : α → Except Err β} {er : Err}
    (h : (e >>= f) = .error er) :
    e = .error er ∨ ∃ a, e = .ok a ∧ f a = .error er := by
  cases e with
  | error e0 =>
    left
    cases h
    rfl
  | ok a => exact Or.inr ⟨a, rfl, h⟩

theorem exec_cost_zero (cfg : Cfg) (i : Instr) (st : VMState) (r : VMState × Nat)
    (h : execInstr cfg i st = .ok r) : r.2 = 0 := by
  cases i <;>
    (simp only [execInstr] at h
     repeat
       first
       | (exact Except.noConfusion h)
       | (obtain ⟨_, -, h⟩ := bindOk h)
       | (split at h)
       | (cases h; rfl))

theorem memRead_err {m : List Int} {p : Int} {e : Err} (h : memRead m p = .error e) :
    e = .memoryIndexError := by
  unfold memRead at h
  split at h
  · exact Except.noConfusion h
  · cases h; rfl

theorem memWrite_err {m : List Int} {p x : Int} {e : Err} (h : memWrite m p x = .error e) :
    e = .memoryIndexError := by
  unfold memWrite at h
  split at h
  · exact Except.noConfusion h
  · cases h; rfl

theorem memResize_err {cfg : Cfg} {n : Int} {e : Err} (h : memResize cfg n = .error e) :
    e = .memoryLimitExceeded := by
  unfold memResize at h
  split at h
  · exact Except.noConfusion h
  · cases h; rfl

theorem getLoop_err {m : List Int} : ∀ {n : Nat} {r : Int} {e : Err},
    Value.getLoop m n r = .error e → e = .memoryIndexError := by
  intro n
  induction n with
  | zero => intro r e h; exact Except.noConfusion h
  | succ k ih =>
    intro r e h
    simp only [Value.getLoop] at h
    split at h
    · exact ih h
    · rename_i heq
      cases h
      exact memRead_err heq

theorem get_err {v : Value} {m : List Int} {e : Err} (h : Value.get v m = .error e) :
    e = .memoryIndexError ∨ e = .referencesOverflow := by
  unfold Value.get at h
  split at h
  · exact Or.inl (getLoop_err h)
  · cases h; exact Or.inr rfl

theorem writeAt_err {st : VMState} {idx : Value} {x : Int} {e : Err}
    (h : writeAt st idx x = .error e) :
    e = .memoryIndexError ∨ e = .referencesOverflow := by
  unfold writeAt at h
  rcases bindEr h with h | ⟨_, -, h⟩
  · exact get_err h
  rcases bindEr h with h | ⟨_, -, h⟩
  · exact Or.inl (memWrite_err h)
  · exact Except.noConfusion h

theorem exec_err (cfg : Cfg) (i : Instr) (st : VMState) (e : Err)
    (h : execInstr cfg i st = .error e) :
    e = .memoryIndexError ∨ e = .memoryLimitExceeded ∨
      e = .referencesOverflow ∨ e = .divisionByZero := by
  cases i <;>
    (simp only [execInstr] at h
     repeat
       first
       | (exact Except.noConfusion h)
       | (rcases writeAt_err h with h1 | h1 <;> simp [h1])
       | (rcases get_err h with h1 | h1 <;> simp [h1])
       | (have h1 := memResize_err h; simp [h1])
       | (cases h; simp)
       | (rcases bindEr h with h | ⟨_, -, h⟩)
       | (split at h))

theorem run_timer_eq (cfg : Cfg) (cmds : List Instr) :
    ∀ (fuel timer : Nat) (st : VMState), (run cfg cmds fuel timer st).timer = timer := by
  intro fuel
  induction fuel with
  | zero => intro timer st; rfl
  | succ n ih =>
    intro timer st
    simp only [run]
    split
    · rfl
    split
    · rfl
    split
    · split
      · rfl
      · rename_i st2cost heq
        have hc := exec_cost_zero _ _ _ _ heq
        simp only at hc
        rw [hc, Nat.add_zero]
        exact ih timer _
    · rfl

theorem run_no_tl (cfg : Cfg) (cmds : List Instr) :
    ∀ (fuel timer : Nat) (st : VMState), timer ≤ Timelimit →
      ∀ (t' : Nat) (st' : VMState),
        run cfg cmds fuel timer st ≠ .aborted .timeLimitExceeded t' st' := by
  intro fuel
  induction fuel with
  | zero => intro timer st _ t' st' h; exact RunResult.noConfusion h
  | succ n ih =>
    intro timer st htl t' st' h
    simp only [run] at h
    split at h
    · exact RunResult.noConfusion h
    split at h
    · omega
    split at h
    · split at h
      · rename_i heq
        rcases exec_err _ _ _ _ heq with h1 | h1 | h1 | h1 <;>
          (cases h; simp_all)
      · rename_i heq
        have hc := exec_cost_zero _ _ _ _ heq
        simp only at hc
        rw [hc, Nat.add_zero] at h
        exact ih timer _ htl t' st' h
    · cases h

theorem run_no_invalid (cfg : Cfg) (cmds : List Instr) :
    ∀ (fuel timer : Nat) (st : VMState) (t' : Nat) (st' : VMState),
      run cfg cmds fuel timer st ≠ .aborted .invalidPosition t' st' := by
  intro fuel
  induction fuel with
  | zero => intro timer st t' st' h; exact RunResult.noConfusion h
  | succ n ih =>
    intro timer st t' st' h
    simp only [run] at h
    split at h
    · exact RunResult.noConfusion h
    split at h
    · cases h
    split at h
    · split at h
      · rename_i heq
        rcases exec_err _ _ _ _ heq with h1 | h1 | h1 | h1 <;>
          (cases h; simp_all)
      · rename_i heq
        exact ih _ _ t' st' h
    · omega

theorem run_halted_cursor (cfg : Cfg) (cmds : List Instr) :
    ∀ (fuel timer : Nat) (st : VMState) (t' : Nat) (st' : VMState),
      run cfg cmds fuel timer st = .halted t' st' → cmds.length ≤ st'.cursor := by
  intro fuel
  induction fuel with
  | zero => intro timer st t' st' h; exact RunResult.noConfusion h
  | succ n ih =>
    intro timer st t' st' h
    simp only [run] at h
    split at h
    · rename_i hcur
      cases h
      exact hcur
    split at h
    · exact RunResult.noConfusion h
    split at h
    · split at h
      · exact RunResult.noConfusion h
      · exact ih _ _ t' st' h
    · exact RunResult.noConfusion h

theorem ok_bind {α β : Type} (a : α) (f : α → Except Err β) :
    (Except.ok a >>= f) = f a := rfl

theorem error_bind {α β : Type} (e : Err) (f : α → Except Err β) :
    ((Except.error e : Except Err α) >>= f) = .error e := rfl

theorem getLoop_succ (m : List Int) (d : Nat) (b : Int) :
    Value.getLoop m (d + 1) b = (memRead m b >>= fun r => Value.getLoop m d r) := by
  cases hb : memRead m b <;> simp only [Value.getLoop, hb, ok_bind, error_bind]

theorem getLoop_comm (m : List Int) : ∀ (d : Nat) (b : Int),
    (Value.getLoop m d b >>= fun r => memRead m r) =
      (memRead m b >>= fun r => Value.getLoop m d r) := by
  intro d
  induction d with
  | zero =>
    intro b
    cases hb : memRead m b <;> simp only [Value.getLoop, hb, ok_bind, error_bind]
  | succ k ih =>
    intro b
    rw [getLoop_succ]
    cases hb : memRead m b <;>
      simp only [hb, ok_bind, error_bind, getLoop_succ]
    · exact ih _

theorem resolveFold_zero (m : List Int) (b : Int) : resolveFold m b 0 = .ok b := rfl

theorem resolveFold_succ (m : List Int) (b : Int) (d : Nat) :
    resolveFold m b (d + 1) = (resolveFold m b d >>= fun r => memRead m r) := by
  unfold resolveFold
  rw [List.range_succ, List.foldlM_append]
  cases hf : (List.range d).foldlM (fun r _ => memRead m r) b <;>
    simp only [hf, ok_bind, error_bind, List.foldlM_cons, List.foldlM_nil]
  cases hr : memRead m _ <;> simp only [hr, ok_bind, error_bind] <;> rfl

theorem getLoop_eq_resolveFold (m : List Int) : ∀ (d : Nat) (b : Int),
    Value.getLoop m d b = resolveFold m b d := by
  intro d
  induction d with
  | zero => intro b; rfl
  | succ k ih =>
    intro b
    rw [resolveFold_succ, ← ih b, getLoop_comm, ← getLoop_succ]

/-- Claim C2: for every Value with base `b` and dereference depth `d ≤ 256`
and every memory pool, `Value::get` performs exactly `d` successive
bounds-checked loads `result = memory[result]` starting from `result = b`
(zero loads when `d = 0`, the fold over `List.range d`) and returns the
final result; a Value with `d > 256` is the fatal "References overflow"
error. -/
theorem value_get_depth_loads (v : Value) (m : List Int) :
    Value.get v m =
      if v.recur ≤ MaxReferenceRecursive then resolveFold m v.value v.recur
      else .error .referencesOverflow := by
  unfold Value.get
  split
  · exact getLoop_eq_resolveFold m v.recur v.value
  · rfl

/-- Claim C3: reading one operand (`Parser::read_value`) adds the character
length of each non-integer token to the accumulating dereference depth
until the first integer token, whose numeric value becomes the base and
whose consumption terminates the read (the tokens after it are returned as
the new cursor position); running out of tokens first is the fatal
"Invalid value" error, and a first integer token longer than 10 characters
is the fatal "Integer too long" error.  (`read_value` is always entered by
the parser with accumulator 0; the statement is proved for every starting
accumulator.) -/
theorem read_value_first_integer (ts : List (List Char)) (recur : Nat) :
    read_value ts recur =
      match ts.dropWhile (fun t => !(Token.is_int t)) with
      | [] => .error .invalidValue
      | t :: rest =>
        if t.length ≤ MaxIntegerLength then
          .ok (⟨Token.as_int t,
               recur + ((ts.takeWhile (fun t => !(Token.is_int t))).map List.length).sum⟩,
               rest)
        else .error .integerTooLong := by
  induction ts generalizing recur with
  | nil => rfl
  | cons t rest ih =>
    by_cases hI : Token.is_int t
    · simp only [read_value, hI, if_true, List.dropWhile_cons, List.takeWhile_cons,
                 Bool.not_true, Bool.false_eq_true, if_false, List.map_nil, List.sum_nil,
                 Nat.add_zero]
    · simp only [read_value, hI, Bool.false_eq_true, if_false, List.dropWhile_cons,
                 List.takeWhile_cons, Bool.not_false, if_true, List.map_cons, List.sum_cons]
      rw [ih (recur + t.length)]
      cases hD : rest.dropWhile (fun t => !(Token.is_int t)) with
      | nil => rfl
      | cons d rest2 => simp [Nat.add_assoc]

theorem two31_eq : (2147483648 : Nat) = 2 ^ 31 := by norm_num

theorem lor_ones {n : Nat} (h : n < 4294967296) : n ||| 4294967295 = 4294967295 := by
  apply Nat.eq_of_testBit_eq
  intro i
  rw [Nat.testBit_lor]
  have h32 : (4294967295 : Nat) = 2 ^ 32 - 1 := by norm_num
  rw [h32, Nat.testBit_two_pow_sub_one]
  by_cases hi : i < 32
  · simp [hi]
  · have hle : (4294967296 : Nat) ≤ 2 ^ i := by
      calc (4294967296 : Nat) = 2 ^ 32 := by norm_num
      _ ≤ 2 ^ i := Nat.pow_le_pow_right (by omega) (by omega)
    simp [hi, Nat.testBit_lt_two_pow (by omega : n < 2 ^ i)]

theorem testBit31_true {n : Nat} (h1 : 2147483648 ≤ n) (h2 : n < 4294967296) :
    n.testBit 31 = true := by
  rw [Nat.testBit_to_div_mod]
  have h31 : (2 : Nat) ^ 31 = 2147483648 := by norm_num
  rw [h31]
  simp only [decide_eq_true_eq]
  omega

theorem land_two31_zero {n : Nat} (h : n < 2147483648) : n &&& 2147483648 = 0 := by
  rw [two31_eq, Nat.and_two_pow, Nat.testBit_lt_two_pow (by omega : n < 2 ^ 31)]
  rfl

theorem land_two31_set {n : Nat} (h1 : 2147483648 ≤ n) (h2 : n < 4294967296) :
    n &&& 2147483648 = 2147483648 := by
  conv_lhs => rw [two31_eq]
  rw [Nat.and_two_pow, testBit31_true h1 h2]
  norm_num

theorem lor_two31_absorb {n : Nat} (h1 : 2147483648 ≤ n) (h2 : n < 4294967296) :
    n ||| 2147483648 = n := by
  apply Nat.eq_of_testBit_eq
  intro i
  rw [Nat.testBit_lor, two31_eq]
  by_cases hi : i = 31
  · subst hi
    rw [Nat.testBit_two_pow_self, testBit31_true h1 h2]
    rfl
  · rw [Nat.testBit_two_pow_of_ne (by omega)]
    simp

theorem u32_lt (x : Int) : u32 x < 4294967296 := by
  unfold u32
  omega

theorem s32_u32_id {x : Int} (h1 : -2147483648 ≤ x) (h2 : x < 2147483648) :
    s32 (u32 x) = x := by
  unfold s32 u32
  split <;> omega

theorem orC_zero (x : Int) : orC x 0 = s32 (u32 x) := by
  unfold orC
  have h0 : u32 0 = 0 := rfl
  rw [h0]
  norm_num

theorem asrC31_neg {w : Int} (h1 : -2147483648 ≤ w) (h2 : w < 0) : asrC w 31 = -1 := by
  unfold asrC
  have h31 : ((2 : Int) ^ 31) = 2147483648 := by norm_num
  rw [h31]
  omega

theorem asrC31_nonneg {w : Int} (h1 : 0 ≤ w) (h2 : w < 2147483648) : asrC w 31 = 0 := by
  unfold asrC
  have h31 : ((2 : Int) ^ 31) = 2147483648 := by norm_num
  rw [h31]
  omega

theorem shlC1_eq {w : Int} (h1 : 0 ≤ w) (h2 : w < 2147483648) :
    shlC w 1 = s32 ((w.toNat) * 2) := by
  unfold shlC u32
  rw [Nat.shiftLeft_eq]
  have : (w % 4294967296).toNat = w.toNat := by omega
  rw [this]

theorem rolStep_neg {w : Int} (h1 : -2147483648 ≤ w) (h2 : w < 0) : rolStep w = -1 := by
  unfold rolStep
  rw [show INT_HIGHBIT = 31 from rfl, asrC31_neg h1 h2]
  unfold orC
  have hm1 : u32 (-1) = 4294967295 := by decide
  rw [hm1, lor_ones (u32_lt _)]
  decide

theorem rolStep_lo {w : Int} (h1 : 0 ≤ w) (h2 : 2 * w < 2147483648) : rolStep w = 2 * w := by
  unfold rolStep
  rw [show INT_HIGHBIT = 31 from rfl, asrC31_nonneg h1 (by omega), orC_zero,
      shlC1_eq h1 (by omega)]
  have hs : s32 (w.toNat * 2) = 2 * w := by
    unfold s32
    split <;> omega
  rw [hs]
  exact s32_u32_id (by omega) (by omega)

theorem rolStep_hi {w : Int} (h1 : 0 ≤ w) (h2 : 2147483648 ≤ 2 * w) (h3 : w < 2147483648) :
    rolStep w = 2 * w - 4294967296 := by
  unfold rolStep
  rw [show INT_HIGHBIT = 31 from rfl, asrC31_nonneg h1 h3, orC_zero, shlC1_eq h1 h3]
  have hs : s32 (w.toNat * 2) = 2 * w - 4294967296 := by
    unfold s32
    split <;> omega
  rw [hs]
  exact s32_u32_id (by omega) (by omega)

theorem ediv_ediv {a : Int} {b c : Int} (hb : 0 < b) (hc : 0 < c) :
    a / b / c = a / (b * c) := by
  have h1 : ∀ z : Int, z ≤ a / b / c ↔ z ≤ a / (b * c) := by
    intro z
    rw [Int.le_ediv_iff_mul_le hc, Int.le_ediv_iff_mul_le hb,
        Int.le_ediv_iff_mul_le (mul_pos hb hc), mul_assoc, mul_comm c b]
  exact le_antisymm ((h1 _).1 le_rfl) ((h1 _).2 le_rfl)

theorem ediv_range {v d : Int} (hd : 0 < d) (h1 : -2147483648 ≤ v) (h2 : v < 2147483648) :
    -2147483648 ≤ v / d ∧ v / d < 2147483648 := by
  constructor
  · rw [Int.le_ediv_iff_mul_le hd]
    nlinarith
  · by_contra hcon
    push_neg at hcon
    rw [Int.le_ediv_iff_mul_le hd] at hcon
    nlinarith

theorem rorStep_eq {w : Int} (h1 : -2147483648 ≤ w) (h2 : w < 2147483648) :
    rorStep w = w / 2 := by
  have hshl : shlC 1 31 = -2147483648 := by decide
  unfold rorStep
  rw [show INT_HIGHBIT = 31 from rfl, hshl]
  have hasr : asrC w 1 = w / 2 := by
    unfold asrC
    norm_num
  rw [hasr]
  have hm : u32 (-2147483648) = 2147483648 := by decide
  rcases le_or_lt 0 w with hw | hw
  · have hand : andC w (-2147483648) = 0 := by
      unfold andC
      rw [hm]
      have hu : u32 w = w.toNat := by unfold u32; omega
      rw [hu, land_two31_zero (by omega)]
      rfl
    rw [hand, orC_zero]
    exact s32_u32_id (by omega) (by omega)
  · have hand : andC w (-2147483648) = -2147483648 := by
      unfold andC
      rw [hm]
      have hu : u32 w = (w + 4294967296).toNat := by unfold u32; omega
      rw [hu, land_two31_set (by omega) (by omega)]
      decide
    rw [hand]
    have hdiv := ediv_range (by norm_num : (0:Int) < 2) h1 h2
    have hdivlt : w / 2 < 0 := by omega
    have hdivge : -2147483648 ≤ w / 2 := hdiv.1
    unfold orC
    rw [hm]
    have hu : u32 (w / 2) = (w / 2 + 4294967296).toNat := by unfold u32; omega
    rw [hu, lor_two31_absorb (by omega) (by omega)]
    rw [← hu]
    exact s32_u32_id (by omega) (by omega)

theorem rorIter_eq {v : Int} (h1 : -2147483648 ≤ v) (h2 : v < 2147483648) :
    ∀ t : Nat, rorIter v t = v / ((2 : Int) ^ t) := by
  intro t
  induction t with
  | zero =>
    rw [rorIter, pow_zero, Int.ediv_one]
  | succ k ih =>
    rw [rorIter, ih]
    have hk : (0 : Int) < 2 ^ k := by positivity
    have hr := ediv_range hk h1 h2
    rw [rorStep_eq hr.1 hr.2, ediv_ediv hk (by norm_num), ← pow_succ]

theorem rolIter_closed {v : Int} (h1 : -2147483648 ≤ v) (h2 : v < 2147483648) :
    ∀ t : Nat,
      rolIter v t =
        if v < 0 then (if t = 0 then v else -1)
        else if 2 ^ t * v < 2147483648 then 2 ^ t * v
        else if 2 ^ (t - 1) * v < 2147483648 then 2 ^ t * v - 4294967296
        else -1 := by
  intro t
  induction t with
  | zero =>
    by_cases hv : v < 0
    · simp [rolIter, hv]
    · push_neg at hv
      simp only [rolIter, hv, if_neg (not_lt.mpr hv), pow_zero, one_mul, if_pos h2]
  | succ k ih =>
    rw [rolIter, ih]
    by_cases hv : v < 0
    · simp only [hv, if_true, if_pos hv]
      by_cases hk : k = 0
      · subst hk
        simp only [if_pos rfl, if_neg (Nat.succ_ne_zero 0)]
        exact rolStep_neg h1 hv
      · simp only [if_neg hk, if_neg (Nat.succ_ne_zero k)]
        exact rolStep_neg (by norm_num) (by norm_num)
    · push_neg at hv
      have hw0 : (0 : Int) ≤ 2 ^ k * v := mul_nonneg (by positivity) hv
      have hp : (2 : Int) ^ (k + 1) * v = 2 * (2 ^ k * v) := by ring
      simp only [if_neg (not_lt.mpr hv)]
      by_cases hA : 2 ^ k * v < 2147483648
      · rw [if_pos hA]
        by_cases hB : 2 * (2 ^ k * v) < 2147483648
        · rw [rolStep_lo hw0 hB, if_pos (by omega : 2 ^ (k + 1) * v < 2147483648)]
          omega
        · push_neg at hB
          rw [rolStep_hi hw0 hB hA,
              if_neg (by omega : ¬(2 ^ (k + 1) * v < 2147483648))]
          have hk1 : k + 1 - 1 = k := rfl
          rw [hk1, if_pos hA]
          omega
      · push_neg at hA
        cases k with
        | zero =>
          rw [pow_zero, one_mul] at hA
          omega
        | succ s =>
          have hs1 : s + 1 - 1 = s := rfl
          have hs2 : s + 1 + 1 - 1 = s + 1 := rfl
          rw [hs1, hs2, if_neg (not_lt.mpr hA)]
          have hmono : (2 : Int) ^ (s + 1) * v ≤ 2 ^ (s + 1 + 1) * v := by nlinarith
          by_cases hC : 2 ^ s * v < 2147483648
          · rw [if_pos hC]
            have hup : (2 : Int) ^ (s + 1) * v < 4294967296 := by
              have : (2 : Int) ^ (s + 1) * v = 2 * (2 ^ s * v) := by ring
              have hs0 : (0 : Int) ≤ 2 ^ s * v := mul_nonneg (by positivity) hv
              omega
            rw [rolStep_neg (by omega) (by omega),
                if_neg (by omega : ¬((2:Int) ^ (s + 1 + 1) * v < 2147483648)),
                if_neg (by omega : ¬((2:Int) ^ (s + 1) * v < 2147483648))]
          · rw [if_neg hC]
            rw [rolStep_neg (by norm_num) (by norm_num),
                if_neg (by omega : ¬((2:Int) ^ (s + 1 + 1) * v < 2147483648)),
                if_neg (by omega : ¬((2:Int) ^ (s + 1) * v < 2147483648))]

theorem tokenizeLoop_run (t : TokenType) (ht : ¬(t = TokenType.UNKNOWN)) :
    ∀ (rest cur : List Char),
      tokenizeLoop t cur rest =
        match rest.dropWhile (fun b => decide (classify b = t)) with
        | [] => []
        | d :: rest2 =>
          (cur ++ rest.takeWhile (fun b => decide (classify b = t))) ::
            (if classify d = TokenType.UNKNOWN then tokenizeLoop .UNKNOWN [] rest2
             else tokenizeLoop (classify d) [d] rest2) := by
  intro rest
  induction rest with
  | nil => intro cur; rfl
  | cons b rest ih =>
    intro cur
    by_cases hb : classify b = t
    · simp only [List.dropWhile_cons, List.takeWhile_cons, hb]
      simp only [eq_self_iff_true, decide_True, if_true]
      simp only [tokenizeLoop, hb, if_neg ht, if_pos rfl]
      rw [ih (cur ++ [b])]
      cases hD : rest.dropWhile (fun b => decide (classify b = t)) with
      | nil => rfl
      | cons d rest2 => simp
    · simp only [List.dropWhile_cons, List.takeWhile_cons, hb]
      simp only [decide_eq_true_eq, if_neg hb]
      by_cases hbu : classify b = TokenType.UNKNOWN
      · simp only [tokenizeLoop, hbu, if_pos rfl, if_neg ht]
        simp [List.append_nil, hbu]
      · simp only [tokenizeLoop, if_neg hbu, if_neg ht]
        rw [if_neg (fun hh => hb hh.symm)]
        simp [List.append_nil, hbu]

theorem tokenize_cons (c : Char) (rest : List Char) :
    tokenize (c :: rest) =
      if classify c = TokenType.UNKNOWN then tokenize rest
      else tokenizeLoop (classify c) [c] rest := by
  unfold tokenize
  by_cases hc : classify c = TokenType.UNKNOWN
  · simp [tokenizeLoop, hc]
  · have hc2 : ¬(TokenType.UNKNOWN = classify c) := fun hh => hc hh.symm
    simp [tokenizeLoop, hc, hc2]

theorem specRuns_cons_unknown {c : Char} (rest : List Char)
    (hc : classify c = TokenType.UNKNOWN) : specRuns (c :: rest) = specRuns rest := by
  rw [specRuns]
  simp [hc]

theorem specRuns_cons_run {c : Char} (rest : List Char)
    (hc : ¬(classify c = TokenType.UNKNOWN)) :
    specRuns (c :: rest) =
      (c :: rest.takeWhile (fun b => decide (classify b = classify c))) ::
        specRuns (rest.dropWhile (fun b => decide (classify b = classify c))) := by
  rw [specRuns]
  simp [hc]

theorem endsTokenish_cons_cons (c d : Char) (rest : List Char) :
    endsTokenish (c :: d :: rest) = endsTokenish (d :: rest) := by
  unfold endsTokenish
  rw [List.getLast?_cons_cons]

theorem endsTokenish_all_run : ∀ (rest : List Char) (c : Char),
    ¬(classify c = TokenType.UNKNOWN) →
    (∀ x ∈ rest, classify x = classify c) →
    endsTokenish (c :: rest) = true := by
  intro rest
  induction rest with
  | nil =>
    intro c hc _
    unfold endsTokenish
    simp [hc]
  | cons d rest ih =>
    intro c hc hall
    rw [endsTokenish_cons_cons]
    have hd : classify d = classify c := hall d (by simp)
    refine ih d (by rw [hd]; exact hc) ?_
    intro x hx
    rw [hall x (by simp [hx]), hd]

theorem getLast?_dropWhile_cons {p : Char → Bool} {l : List Char} {d : Char}
    {rest2 : List Char} (h : l.dropWhile p = d :: rest2) (c : Char) :
    (c :: l).getLast? = (d :: rest2).getLast? := by
  have hsplit : l.takeWhile p ++ (d :: rest2) = l := by
    rw [← h]
    exact List.takeWhile_append_dropWhile p l
  conv_lhs => rw [← hsplit]
  rw [show c :: (l.takeWhile p ++ (d :: rest2)) = (c :: l.takeWhile p) ++ (d :: rest2) by simp]
  rw [List.getLast?_append]
  cases hlast : (d :: rest2).getLast? with
  | none =>
    rw [List.getLast?_eq_getLast (d :: rest2) (by simp)] at hlast
    exact Option.noConfusion hlast
  | some x => rfl

theorem specRuns_ne_nil : ∀ (n : Nat) (s : List Char), s.length ≤ n →
    endsTokenish s = true → specRuns s ≠ [] := by
  intro n
  induction n with
  | zero =>
    intro s hs he
    cases s with
    | nil => exact absurd he (by unfold endsTokenish; simp)
    | cons c rest => simp at hs
  | succ k ih =>
    intro s hs he
    cases s with
    | nil => exact absurd he (by unfold endsTokenish; simp)
    | cons c rest =>
      by_cases hc : classify c = TokenType.UNKNOWN
      · rw [specRuns_cons_unknown rest hc]
        cases rest with
        | nil =>
          exact absurd he (by unfold endsTokenish; simp [hc])
        | cons d rest2 =>
          rw [endsTokenish_cons_cons] at he
          exact ih _ (by simp at hs ⊢; omega) he
      · rw [specRuns_cons_run rest hc]
        simp

theorem specRuns_nil : specRuns [] = [] := by rw [specRuns]

theorem tokenize_runs_aux : ∀ (n : Nat) (s : List Char), s.length ≤ n →
    tokenize s =
      if endsTokenish s = true then (specRuns s).dropLast else specRuns s := by
  intro n
  induction n with
  | zero =>
    intro s hs
    cases s with
    | nil => rw [specRuns_nil]; rfl
    | cons c rest => simp at hs
  | succ k ih =>
    intro s hs
    cases s with
    | nil => rw [specRuns_nil]; rfl
    | cons c rest =>
      by_cases hc : classify c = TokenType.UNKNOWN
      · rw [tokenize_cons, if_pos hc, specRuns_cons_unknown rest hc]
        cases rest with
        | nil =>
          have he : endsTokenish [c] = false := by
            unfold endsTokenish
            simp [hc]
          rw [he, specRuns_nil]
          rfl
        | cons d rest2 =>
          rw [endsTokenish_cons_cons]
          exact ih (d :: rest2) (by simp at hs ⊢; omega)
      · rw [tokenize_cons, if_neg hc, tokenizeLoop_run (classify c) hc rest [c],
            specRuns_cons_run rest hc]
        cases hD : rest.dropWhile (fun b => decide (classify b = classify c)) with
        | nil =>
          have hall : ∀ x ∈ rest, classify x = classify c := by
            intro x hx
            have := List.dropWhile_eq_nil_iff.mp hD x hx
            exact of_decide_eq_true this
          have he : endsTokenish (c :: rest) = true := endsTokenish_all_run rest c hc hall
          simp only [hD, he, if_pos rfl]
          rw [specRuns]
          simp
        | cons d rest2 =>
          have hstep :
              (if classify d = TokenType.UNKNOWN then tokenizeLoop .UNKNOWN [] rest2
               else tokenizeLoop (classify d) [d] rest2) = tokenize (d :: rest2) := by
            rw [tokenize_cons]
            by_cases hd : classify d = TokenType.UNKNOWN
            · rw [if_pos hd, if_pos hd]
              rfl
            · rw [if_neg hd, if_neg hd]
          have hlast : endsTokenish (c :: rest) = endsTokenish (d :: rest2) := by
            unfold endsTokenish
            rw [getLast?_dropWhile_cons hD c]
          have hlen : (d :: rest2).length ≤ k := by
            have hsub :=
              (List.dropWhile_sublist
                (l := rest) (p := fun b => decide (classify b = classify c))).length_le
            rw [hD] at hsub
            simp at hs
            omega
          have hIH := ih (d :: rest2) hlen
          simp only [hD]
          rw [hstep, hIH, hlast]
          by_cases he : endsTokenish (d :: rest2) = true
          · rw [if_pos he, if_pos he]
            have hne := specRuns_ne_nil (d :: rest2).length (d :: rest2) le_rfl he
            rw [List.dropLast_cons_of_ne_nil hne]
            simp
          · rw [if_neg he, if_neg he]
            simp

/-! ### Claim theorems -/

/-- Claim C1, counterexample: in friendly mode the two-line program
`SET 5 0` / `OUT 0` (no preceding `MEM`) does not complete and emits no
output: the `SET` writes through the empty memory pool of a fresh program
and aborts with the out-of-bounds "Memory index error". -/
theorem c1_counterexample :
    runSource cfgF [("SET 5 0\n").toList, ("OUT 0\n").toList] [] 10 =
      .ok (.aborted .memoryIndexError 0 ⟨[], 1, [], []⟩) := by
  rfl

/-- Claim C1, amended: the program as specified aborts on the `SET` with
"Memory index error" and emits nothing.  With `MEM 1` prepended the run
halts normally but emits `[0]`, not `[5]`: `OUT 0` resolves its operand at
depth 0 to the literal 0; emitting the stored 5 requires the depth-1
operand `OUT *0`. -/
theorem c1_amended :
    runSource cfgF [("SET 5 0\n").toList, ("OUT 0\n").toList] [] 10 =
      .ok (.aborted .memoryIndexError 0 ⟨[], 1, [], []⟩) ∧
    runSource cfgF [("MEM 1\n").toList, ("SET 5 0\n").toList, ("OUT 0\n").toList] [] 10 =
      .ok (.halted 0 ⟨[5], 3, [], [0]⟩) ∧
    runSource cfgF [("MEM 1\n").toList, ("SET 5 0\n").toList, ("OUT *0\n").toList] [] 10 =
      .ok (.halted 0 ⟨[5], 3, [], [5]⟩) :=
  ⟨rfl, rfl, rfl⟩

/-- Claim C4, counterexample: `OutInstruction::execute` reports a time
cost of 0, not 1 — executing `OUT 5` emits the value and returns cost 0. -/
theorem c4_counterexample :
    execInstr cfgF (.out ⟨5, 0⟩) (initState []) = .ok (⟨[], 0, [], [5]⟩, 0) ∧
    (0 : Nat) ≠ 1 :=
  ⟨rfl, by decide⟩

/-- Claim C4, amended: every instruction's `execute` — the I/O
instructions `IN` and `OUT` included — reports a time cost of 0. -/
theorem c4_amended (cfg : Cfg) (i : Instr) (st : VMState) (r : VMState × Nat)
    (h : execInstr cfg i st = .ok r) : r.2 = 0 :=
  exec_cost_zero cfg i st r h

/-- Witness for C4's amended theorem at a concrete instruction. -/
theorem c4_witness : ((initState [], 0) : VMState × Nat).2 = 0 :=
  c4_amended cfgF .nop (initState []) (initState [], 0) rfl

/-- Claim C5: the elapsed timer of `Program::run` is monotonically
non-decreasing (indeed constant: every instruction reports cost 0, so the
accumulated cost never changes the timer), it never exceeds `Timelimit`
in a run that starts within the limit — in particular in a complete run,
which starts from 0 — and consequently no run that starts within the
limit ever aborts with "Time limit exceeded": the condition of the
claim's first sentence ("a program whose accumulated reported cost
crosses Timelimit") is unsatisfiable in this code, so the abort-on-the-
crossing-instruction behaviour holds vacuously. -/
theorem c5_timer_invariant (cfg : Cfg) (cmds : List Instr) (fuel timer : Nat)
    (st : VMState) :
    (run cfg cmds fuel timer st).timer = timer ∧
    timer ≤ (run cfg cmds fuel timer st).timer ∧
    (timer ≤ Timelimit → ∀ (t' : Nat) (st' : VMState),
      run cfg cmds fuel timer st ≠ .aborted .timeLimitExceeded t' st') :=
  ⟨run_timer_eq cfg cmds fuel timer st,
   le_of_eq (run_timer_eq cfg cmds fuel timer st).symm,
   fun h => run_no_tl cfg cmds fuel timer st h⟩

/-- Witness for C5 at a concrete program and state. -/
theorem c5_witness :
    run cfgF [] 1 0 (initState []) ≠ .aborted .timeLimitExceeded 0 (initState []) :=
  (c5_timer_invariant cfgF [] 1 0 (initState [])).2.2 (by decide) 0 (initState [])

/-- Claim C6, counterexample: in the friendly-mode program `MEM 1` then a
tagged NOP at index 1 targeting cell 0, the tagged NOP stores 2 — the
cursor already advanced past it — not its own index 1. -/
theorem c6_counterexample :
    run cfgF [.mem ⟨1, 0⟩, .tnop ⟨0, 0⟩] 10 0 (initState []) =
      .halted 0 ⟨[2], 2, [], []⟩ ∧
    (2 : Int) ≠ 1 :=
  ⟨rfl, by decide⟩

/-- Claim C6, amended: executing a tagged NOP that is the command at
index `i` stores `i + 1` into `memory[GET(idx)]` — the value of
`Program::current` after the fetch step's `current++`, i.e. the index of
the instruction after the tagged NOP. -/
theorem c6_amended (cfg : Cfg) (cmds : List Instr) (fuel i timer : Nat)
    (st : VMState) (v : Value) (a : Int) (m' : List Int)
    (hc : st.cursor = i)
    (hi : cmds[i]? = some (.tnop v))
    (ht : timer ≤ Timelimit)
    (ha : Value.get v st.memory = .ok a)
    (hm : memWrite st.memory a ((i + 1 : Nat) : Int) = .ok m') :
    run cfg cmds (fuel + 1) timer st =
      run cfg cmds fuel timer { st with memory := m', cursor := i + 1 } := by
  subst hc
  have hlen : st.cursor < cmds.length := by
    rcases List.getElem?_eq_some.mp hi with ⟨h, _⟩
    exact h
  have hget : cmds[st.cursor] = .tnop v := by
    rw [List.getElem?_eq_getElem hlen] at hi
    exact Option.some.inj hi
  simp only [run]
  rw [if_neg (by omega), if_neg (by omega), dif_pos hlen, hget]
  simp only [execInstr, writeAt, ha, ok_bind, hm]
  rfl

/-- Witness for C6's amended theorem: a one-instruction program whose
tagged NOP at index 0 stores 1 into cell 0. -/
theorem c6_witness :
    run cfgF [.tnop ⟨0, 0⟩] 1 0 ⟨[7], 0, [], []⟩ =
      run cfgF [.tnop ⟨0, 0⟩] 0 0 ⟨[1], 1, [], []⟩ :=
  c6_amended cfgF [.tnop ⟨0, 0⟩] 0 0 0 ⟨[7], 0, [], []⟩ ⟨0, 0⟩ 0 [1] rfl rfl
    (by decide) rfl rfl

/-- Claim C7, counterexample: ROR does not write the exact bitwise right
rotation.  Executing `ROR` with `GET(v1) = 1`, `GET(v2) = 1` writes 0 to
the destination cell, while the exact rotation of the 32-bit pattern of 1
by 1 (the rotated-out low bit reappearing as the top bit) is
`-2147483648`. -/
theorem c7_counterexample :
    execInstr cfgF (.ror ⟨1, 0⟩ ⟨1, 0⟩ ⟨0, 0⟩) ⟨[7], 0, [], []⟩ =
      .ok (⟨[0], 0, [], []⟩, 0) ∧
    s32 (rotr32 (u32 1) 1) = -2147483648 ∧
    (0 : Int) ≠ -2147483648 :=
  ⟨rfl, by decide, by decide⟩

/-- Claim C7, amended: the values the ROL/ROR loops actually compute for
a machine-int operand `a` and masked shift count `t` (`GET(v2) & 31`).
ROR's step `(v >> 1) | (v & (1 << 31))` is an arithmetic shift right that
preserves the sign bit and discards the low bit — floor division by 2 —
so `t` iterations produce `a / 2^t`, not a rotation.  ROL's step
`(v << 1) | (v >> 31)` doubles non-negative values (wrapping into the
sign once the top bit is reached) and collapses any negative value to -1
(all ones), because `v >> 31` is an arithmetic shift producing all ones;
it agrees with true rotation only while no set bit reaches the sign
position. -/
theorem c7_amended (a : Int) (t : Nat) (h1 : -2147483648 ≤ a) (h2 : a < 2147483648) :
    rorIter a t = a / ((2 : Int) ^ t) ∧
    rolIter a t =
      (if a < 0 then (if t = 0 then a else -1)
       else if 2 ^ t * a < 2147483648 then 2 ^ t * a
       else if 2 ^ (t - 1) * a < 2147483648 then 2 ^ t * a - 4294967296
       else -1) :=
  ⟨rorIter_eq h1 h2 t, rolIter_closed h1 h2 t⟩

/-- Witness for C7's amended theorem at `a = 3`, `t = 2`. -/
theorem c7_witness :
    rorIter 3 2 = (3 : Int) / ((2 : Int) ^ 2) ∧
    rolIter 3 2 =
      (if (3 : Int) < 0 then (if 2 = 0 then (3 : Int) else -1)
       else if 2 ^ 2 * 3 < 2147483648 then 2 ^ 2 * 3
       else if 2 ^ (2 - 1) * 3 < 2147483648 then 2 ^ 2 * 3 - 4294967296
       else -1) :=
  c7_amended 3 2 (by decide) (by decide)

/-- Claim C8, counterexample: a maximal run terminated by the end of the
line produces no token.  Tokenizing the buffer `AB` yields no tokens at
all, while the maximal same-class runs of `AB` are exactly one run `AB`. -/
theorem c8_counterexample :
    tokenize (("AB").toList) = [] ∧
    specRuns (("AB").toList) = [("AB").toList] ∧
    ([] : List (List Char)) ≠ [("AB").toList] := by
  refine ⟨rfl, ?_, by decide⟩
  rw [show ("AB").toList = 'A' :: ['B'] from rfl,
      specRuns_cons_run ['B'] (by decide)]
  rw [show List.dropWhile (fun b => decide (classify b = classify 'A')) ['B'] = []
        from by decide,
      specRuns_nil]
  decide

/-- Claim C8, amended: the tokenizer produces exactly one token per
maximal run of consecutive same-class characters, in left-to-right order,
each token's content being exactly that character span, and characters of
class "other" produce no token — except that a final maximal run
terminated by the end of the line (the buffer's last character belongs to
a token class) is discarded: the scan loop exits at the terminator
without flushing the open run, so the output is the run list minus its
last element.  (Lines delivered by the program's loader end in a newline,
an "other"-class character, so every run of such a line is terminated
before the end and this discard is not observable there.) -/
theorem c8_amended (s : List Char) :
    tokenize s =
      if endsTokenish s = true then (specRuns s).dropLast else specRuns s :=
  tokenize_runs_aux s.length s le_rfl

/-- Claim C9, counterexample: no run of any program ever aborts with the
cursor-out-of-range "Invalid position" diagnostic — the claimed program
witnessing that error kind does not exist. -/
theorem c9_counterexample :
    ¬ ∃ (cfg : Cfg) (cmds : List Instr) (fuel timer : Nat) (st : VMState)
        (t' : Nat) (st' : VMState),
      run cfg cmds fuel timer st = .aborted .invalidPosition t' st' := by
  rintro ⟨cfg, cmds, fuel, timer, st, t', st', h⟩
  exact run_no_invalid cfg cmds fuel timer st t' st' h

/-- Claim C9, amended: the "Invalid position" check exists in the run
loop but is unreachable — the `while (!exited())` guard already ensures
`0 ≤ current < commands.size()` at the check, and `current` is unsigned —
so a cursor set to any position at or past the end halts the run
normally; normal (non-error) halting occurs exactly when the cursor
reaches or passes `commands.length`. -/
theorem c9_amended (cfg : Cfg) (cmds : List Instr) (fuel timer : Nat) (st : VMState) :
    (∀ (t' : Nat) (st' : VMState),
        run cfg cmds fuel timer st ≠ .aborted .invalidPosition t' st') ∧
    (run cfg cmds (fuel + 1) timer st = .halted timer st ↔ cmds.length ≤ st.cursor) := by
  refine ⟨fun t' st' => run_no_invalid cfg cmds fuel timer st t' st', ?_, ?_⟩
  · intro h
    exact run_halted_cursor cfg cmds (fuel + 1) timer st timer st h
  · intro h
    simp only [run]
    rw [if_pos h]

/-- Claim C10: a newly constructed Program owns a memory pool of size 0,
so before a `MEM` instruction has resized the pool every memory access
fails: every bounds-checked read and write on the empty pool is the fatal
"Memory index error", and resolving any operand that performs at least
one dereference (depth ≥ 1) against the empty pool fails the same way
(depth 0 resolves to the literal without touching memory; depth > 256 is
the references-overflow error checked first). -/
theorem c10_empty_pool_faults :
    (∀ (inputs : List Int), (initState inputs).memory = []) ∧
    (∀ (pos : Int), memRead [] pos = .error .memoryIndexError) ∧
    (∀ (pos x : Int), memWrite [] pos x = .error .memoryIndexError) ∧
    (∀ (v : Value),
      Value.get v [] =
        if v.recur ≤ MaxReferenceRecursive then
          (if v.recur = 0 then .ok v.value else .error .memoryIndexError)
        else .error .referencesOverflow) := by
  refine ⟨fun _ => rfl, ?_, ?_, ?_⟩
  · intro pos
    unfold memRead
    rw [dif_neg (by simp)]
  · intro pos x
    unfold memWrite
    rw [if_neg (by simp)]
  · intro v
    unfold Value.get
    by_cases h : v.recur ≤ MaxReferenceRecursive
    · rw [if_pos h, if_pos h]
      cases hr : v.recur with
      | zero => rfl
      | succ n =>
        rw [if_neg (by omega)]
        simp only [Value.getLoop]
        rw [show memRead [] v.value = .error .memoryIndexError from by
              unfold memRead
              rw [dif_neg (by simp)]]
    · rw [if_neg h, if_neg h]
